import Mathlib

/-!
Verification development for the job-portal ranking and query-interpretation
engine.

The development shallowly embeds two source modules:

* the recommendation module (`calculateTFIDFScore`, `getRecommendations`),
  which ranks active job listings for a user, preferring an external
  semantic-ranking service and falling back to a TF-IDF style scorer; and
* the search module (`processSearchQuery`, `extractKeywords`,
  `buildEnhancedQuery`), which turns free search text into a structured
  intent and then into a MongoDB-style query object.

Modelling conventions:

* JavaScript strings are manipulated through their character lists
  (`String.toList`), because the interesting operations (lowercasing,
  trimming, splitting) are character-wise.  `jsTrim` models
  `String.prototype.trim`, `splitChars` models `String.prototype.split`
  on a character-class pattern (producing empty fragments at separator
  boundaries, exactly like the JavaScript original; every call site
  filters those out by a length test), and `dedupFirstSeen` models
  iteration over a JavaScript `Set`, which preserves first-insertion
  order.
* The external services (OpenAI ranking, Groq chat completion) and the
  JavaScript built-ins `JSON.parse` and the fenced-code-block regular
  expression are oracles: their outcome is passed in as an explicit
  argument and the theorems quantify over every possible outcome.  The
  OpenAI response is modelled by its documented contract, a JSON array of
  listing-id strings or a failure (`Option (List String)`, where `none`
  covers "no credential configured" and every failure of the call or of
  JSON parsing, all of which the source maps to `null`).
* Scores are real numbers; `tfidfTermWeight` reproduces the weight the
  `natural` library computes for a one-document corpus:
  `tf * (1 + log (#docs / (1 + #docsWithTerm)))` with `#docs = 1`.
* `Array.prototype.sort` (guaranteed stable by the ECMAScript standard)
  with comparator `(a, b) => b.score - a.score` is modelled by
  `List.mergeSort` with the boolean relation `scoreDescLE`, which is a
  stable sort with respect to the same total preorder.
* A JavaScript object used as a MongoDB query is modelled as a function
  from key strings to optional query values (`MongoQuery`); `qset`
  models property assignment.
-/

/-! ### Character-level text utilities shared by both modules -/

/-- Word characters of the JavaScript regular-expression class `\w`:
ASCII letters, ASCII digits and underscore. -/
def wordChar (c : Char) : Bool := c.isAlpha || c.isDigit || c = '_'

/-- Model of JavaScript `split` on a one-character-class pattern: cut the
character list at every character satisfying `p`.  Adjacent separators and
separators at the ends produce empty fragments, as in JavaScript; the
callers below discard them by filtering on fragment length.  The result is
always non-empty. -/
def splitChars (p : Char → Bool) : List Char → List (List Char)
  | [] => [[]]
  | c :: cs =>
    match splitChars p cs with
    | [] => [[]]
    | t :: ts => if p c then [] :: t :: ts else (c :: t) :: ts

/-- Model of collecting a JavaScript array into a `Set` and iterating it:
duplicates are removed, the first occurrence keeps its position. -/
def dedupFirstSeen {α : Type} [DecidableEq α] (l : List α) : List α :=
  l.foldl (fun acc w => if w ∈ acc then acc else acc ++ [w]) []

/-- Model of `String.prototype.trim`: drop whitespace from both ends. -/
def jsTrim (l : List Char) : List Char :=
  ((l.dropWhile Char.isWhitespace).reverse.dropWhile Char.isWhitespace).reverse

/-- Character-wise lowercasing, the model of `String.prototype.toLowerCase`. -/
def lowerChars (l : List Char) : List Char := l.map Char.toLower

/-- Model of `new natural.WordTokenizer().tokenize`: split on runs of
non-word characters and discard empty fragments. -/
def tokenize (l : List Char) : List (List Char) :=
  (splitChars (fun c => !wordChar c) l).filter (fun t => decide (t ≠ []))

/-! ### Search module: keyword extraction (`extractKeywords`) -/

/-- The closed stop-word list of the source (`aiSearchService`), verbatim. -/
def stopWords : List String :=
  ["the", "a", "an", "and", "or", "but", "in", "on", "at", "to", "for", "of",
   "with", "by", "is", "are", "was", "were", "be", "been", "being", "have",
   "has", "had", "do", "does", "did", "will", "would", "should", "could",
   "may", "might", "must", "can", "this", "that", "these", "those"]

/-- The stop words as character lists, for comparison against tokens. -/
def stopWordChars : List (List Char) := stopWords.map String.toList

/-- The replacement step of the source, `replace(/[^\w\s]/g, ' ')`: a
character that is neither a word character nor whitespace becomes a
space; word characters and whitespace are kept. -/
def srcReplaceChar (c : Char) : Char :=
  if !wordChar c && !c.isWhitespace then ' ' else c

/-- Token filter of the source: keep fragments of length greater than two
that are not stop words. -/
def keywordTokenFilter (w : List Char) : Bool :=
  decide (w.length > 2) && !stopWordChars.contains w

/-- Embedding of `extractKeywords` (search module): on empty input return
the empty list; otherwise lowercase, replace non-word non-whitespace
characters by spaces, split on whitespace, keep tokens of length greater
than two that are not stop words, and deduplicate keeping first
occurrences. -/
def extractKeywords (text : String) : List String :=
  if text = "" then []
  else
    (dedupFirstSeen
      ((splitChars Char.isWhitespace
        ((lowerChars text.toList).map srcReplaceChar)).filter keywordTokenFilter)).map String.mk

/-- The replacement step as the specification words it: every non-word
character is replaced by whitespace.  This differs from `srcReplaceChar`
only on whitespace characters, which it rewrites to a space. -/
def specReplaceChar (c : Char) : Char := if wordChar c then c else ' '

/-- The keyword-extraction algorithm as the specification sentence states
it, used to compare against the embedding of the source: lowercase,
replace non-word characters with whitespace, split on whitespace, drop
tokens of length at most two, drop stop words, deduplicate preserving
first-seen order. -/
def extractKeywordsSpec (text : String) : List String :=
  (dedupFirstSeen
    ((splitChars Char.isWhitespace
      ((lowerChars text.toList).map specReplaceChar)).filter keywordTokenFilter)).map String.mk

/-! ### Search module: query interpretation (`processSearchQuery`) -/

/-- The JSON object the external text-understanding service is asked to
return, with every key optional (a missing key is `none`). -/
structure ParsedResponse where
  keywords : Option (List String) := none
  skills : Option (List String) := none
  jobTitle : Option String := none
  jobLevel : Option String := none
  intent : Option String := none
  improvedQuery : Option String := none
  searchTerms : Option (List String) := none
deriving DecidableEq

/-- Outcome of the Groq chat-completion call as observed by
`processSearchQuery`: no API credential configured (the client getter
returns `null`), the awaited call threw (network or service error), or it
returned with an optional message content
(`completion.choices[0]?.message?.content`). -/
inductive GroqOutcome where
  | noCredential
  | threw (msg : String)
  | returned (content : Option String)
deriving DecidableEq

/-- The structured intent `processSearchQuery` resolves with. -/
structure StructuredIntent where
  originalQuery : String
  processedQuery : String
  keywords : List String
  skills : List String := []
  jobTitle : Option String := none
  jobLevel : Option String := none
  intent : String
  searchTerms : List String := []
  useAI : Bool
  error : Option String := none
deriving DecidableEq

/-- Model of the JavaScript expression `v || d` for a string `v` read from
a parsed JSON object: a missing key and the empty string are falsy. -/
def jsStringOr (v : Option String) (d : String) : String :=
  match v with
  | some s => if s = "" then d else s
  | none => d

/-- Model of `v || null` for an optional string: the empty string
collapses to `null`. -/
def jsStringOrNull (v : Option String) : Option String :=
  match v with
  | some s => if s = "" then none else some s
  | none => none

/-- Intent returned for empty or blank search text. -/
def emptyQueryIntent (searchText : String) : StructuredIntent :=
  { originalQuery := searchText
    processedQuery := ""
    keywords := []
    intent := "general"
    useAI := false }

/-- Intent returned when no Groq credential is configured. -/
def noCredentialIntent (searchText : String) : StructuredIntent :=
  { originalQuery := searchText
    processedQuery := searchText
    keywords := extractKeywords searchText
    intent := "general"
    useAI := false }

/-- Intent returned by the catch-all handler of `processSearchQuery`,
recording the failure reason. -/
def errorFallbackIntent (searchText msg : String) : StructuredIntent :=
  { originalQuery := searchText
    processedQuery := searchText
    keywords := extractKeywords searchText
    intent := "general"
    useAI := false
    error := some msg }

/-- Intent built from a successfully parsed service response, defaulting
every missing key to its neutral value. -/
def successIntent (searchText : String) (p : ParsedResponse) : StructuredIntent :=
  { originalQuery := searchText
    processedQuery := jsStringOr p.improvedQuery searchText
    keywords := p.keywords.getD []
    skills := p.skills.getD []
    jobTitle := jsStringOrNull p.jobTitle
    jobLevel := jsStringOrNull p.jobLevel
    intent := jsStringOr p.intent "general"
    searchTerms := p.searchTerms.getD []
    useAI := true }

/-- Embedding of `processSearchQuery`.  `jsonParse` is the oracle for
`JSON.parse` (returning `none` when parsing throws) and
`extractJsonBlock` is the oracle for the regular-expression recovery of a
JSON object from a fenced code block or brace span (returning the
captured substring, `none` if nothing matches).  The whole body of the
source is wrapped in `try ... catch`, and the handler returns
`errorFallbackIntent`; the embedding therefore returns the handler's
value on every path that throws in the source, so the function is total:
no input or service outcome yields an error. -/
def processSearchQuery (searchText : String) (outcome : GroqOutcome)
    (jsonParse : String → Option ParsedResponse)
    (extractJsonBlock : String → Option String) : StructuredIntent :=
  if searchText = "" ∨ jsTrim searchText.toList = [] then emptyQueryIntent searchText
  else
    match outcome with
    | GroqOutcome.noCredential => noCredentialIntent searchText
    | GroqOutcome.threw msg => errorFallbackIntent searchText msg
    | GroqOutcome.returned none => errorFallbackIntent searchText "No response from Groq"
    | GroqOutcome.returned (some content) =>
      match jsonParse content with
      | some p => successIntent searchText p
      | none =>
        match extractJsonBlock content with
        | some inner =>
          match jsonParse inner with
          | some p => successIntent searchText p
          | none => errorFallbackIntent searchText "Unexpected token in JSON"
        | none => errorFallbackIntent searchText "Unable to parse JSON from Groq response"

/-- The condition under which the source reaches `useAI: true`: the input
is not blank, the call returned message content, and that content parsed
as JSON either directly or through the fenced-block recovery. -/
def groqSuccess (searchText : String) (outcome : GroqOutcome)
    (jsonParse : String → Option ParsedResponse)
    (extractJsonBlock : String → Option String) : Prop :=
  ¬(searchText = "" ∨ jsTrim searchText.toList = []) ∧
    ∃ content, outcome = GroqOutcome.returned (some content) ∧
      ((jsonParse content).isSome ∨
        ∃ inner, extractJsonBlock content = some inner ∧ (jsonParse inner).isSome)

/-! ### Search module: query building (`buildEnhancedQuery`) -/

/-- One text-match condition inside an `$or` group. -/
inductive Cond where
  | regexMatch (field pattern : String)
  | skillsIn (pattern : String)
deriving DecidableEq

/-- A value stored under a key of a MongoDB-style query object:
a plain string, an `$or` group, an experience range (`$gte`/`$lte`), or
an arbitrary caller-supplied value the builder never inspects. -/
inductive QVal where
  | strVal (s : String)
  | orGroup (conds : List Cond)
  | expRange (gte lte : Option Int)
  | otherVal (tag : String)
deriving DecidableEq

/-- A MongoDB-style query object: a map from keys to optional values. -/
abbrev MongoQuery : Type := String → Option QVal

/-- Model of property assignment `q[key] = v`. -/
def qset (q : MongoQuery) (key : String) (v : QVal) : MongoQuery :=
  fun k => if k = key then some v else q k

/-- Model of `query.$or || []`: the conditions already stored under `$or`,
or the empty list when the key is absent. -/
def orCondsOf (q : MongoQuery) : List Cond :=
  match q "$or" with
  | some (QVal.orGroup conds) => conds
  | _ => []

/-- The three-field phrase match the builder emits for a query string. -/
def phraseConds (pq : String) : List Cond :=
  [Cond.regexMatch "title" pq, Cond.regexMatch "description" pq,
   Cond.regexMatch "company" pq]

/-- The `searchConditions` array assembled on the AI path: phrase match
for a non-empty processed query, a title/description pair per keyword, a
title match for a truthy job title, and a skill-membership match per
skill. -/
def searchConditionsOf (d : StructuredIntent) : List Cond :=
  (if d.processedQuery ≠ "" then phraseConds d.processedQuery else [])
    ++ d.keywords.flatMap (fun kw =>
        [Cond.regexMatch "title" kw, Cond.regexMatch "description" kw])
    ++ (match d.jobTitle with
        | some t => if t ≠ "" then [Cond.regexMatch "title" t] else []
        | none => [])
    ++ d.skills.map Cond.skillsIn

/-- The seniority table of the source: `entry` maps to `{$lte: 2}`, `mid`
to `{$gte: 2, $lte: 5}`, `senior` to `{$gte: 5, $lte: 10}`, `executive`
to `{$gte: 10}`; every other value is absent from the table. -/
def levelMap (lvl : String) : Option (Option Int × Option Int) :=
  if lvl = "entry" then some (none, some 2)
  else if lvl = "mid" then some (some 2, some 5)
  else if lvl = "senior" then some (some 5, some 10)
  else if lvl = "executive" then some (some 10, none)
  else none

/-- Satisfaction of an experience range filter by an experience value:
`$gte` and `$lte` bounds are inclusive and conjoined. -/
def expRangeMatches (gte lte : Option Int) (e : Int) : Bool :=
  gte.all (fun lo => decide (lo ≤ e)) && lte.all (fun hi => decide (e ≤ hi))

/-- The `$or` assignment of the AI path: when the assembled search
conditions are non-empty they are appended to any existing `$or` group
and the result is stored under `$or`. -/
def orStep (d : StructuredIntent) (existingQuery : MongoQuery) : MongoQuery :=
  if searchConditionsOf d ≠ [] then
    qset existingQuery "$or"
      (QVal.orGroup (orCondsOf existingQuery ++ searchConditionsOf d))
  else existingQuery

/-- Embedding of `buildEnhancedQuery`.  A `none` intent or a fallback
intent takes the simple-regex path (which assigns `$or` when the
processed query is non-empty); an AI intent appends its search conditions
to any existing `$or` group and assigns the `experience` filter when the
job level is found in the seniority table. -/
def buildEnhancedQuery (processedData : Option StructuredIntent)
    (existingQuery : MongoQuery) : MongoQuery :=
  match processedData with
  | none => existingQuery
  | some d =>
    if d.useAI = false then
      if d.processedQuery ≠ "" then
        qset existingQuery "$or" (QVal.orGroup (phraseConds d.processedQuery))
      else existingQuery
    else
      match d.jobLevel with
      | none => orStep d existingQuery
      | some lvl =>
        match levelMap lvl with
        | some r => qset (orStep d existingQuery) "experience" (QVal.expRange r.1 r.2)
        | none => orStep d existingQuery

/-! ### Recommendation module: data model -/

/-- A user profile as read by the recommendation module. -/
structure User where
  skills : List String
  resumeKeywords : List String
deriving DecidableEq

/-- An active job listing; `id` models `_id.toString()`. -/
structure Job where
  id : String
  title : String
  description : String
  skills : List String
  requirements : List String
deriving DecidableEq

/-! ### Recommendation module: TF-IDF scorer (`calculateTFIDFScore`) -/

/-- The combined listing text: description, skills and requirements
joined by spaces, lowercased. -/
def jobTextChars (jobDescription : String) (jobSkills jobRequirements : List String) :
    List Char :=
  lowerChars (List.intercalate [' ']
    (([jobDescription] ++ jobSkills ++ jobRequirements).map String.toList))

/-- The combined profile text: skills and resume keywords joined by
spaces, lowercased. -/
def userTextChars (userSkills userKeywords : List String) : List Char :=
  lowerChars (List.intercalate [' '] ((userSkills ++ userKeywords).map String.toList))

/-- The weight `natural`'s `TfIdf` assigns to a single term against a
corpus holding exactly one document (the tokenized listing):
term frequency times `1 + log (1 / (1 + #docsWithTerm))`. -/
noncomputable def tfidfTermWeight (jobTokens : List (List Char)) (term : List Char) : ℝ :=
  let docsWithTerm : ℕ := if 0 < jobTokens.count term then 1 else 0
  (jobTokens.count term : ℝ) * (1 + Real.log (1 / (1 + (docsWithTerm : ℝ))))

/-- Embedding of `calculateTFIDFScore`: zero when either combined text
trims to nothing or tokenizes to nothing, otherwise the sum over the
distinct profile tokens (in `Set` insertion order) of the positive
per-term weights. -/
noncomputable def calculateTFIDFScore (userSkills userKeywords : List String)
    (jobDescription : String) (jobSkills jobRequirements : List String) : ℝ :=
  let jobText := jobTextChars jobDescription jobSkills jobRequirements
  let userText := userTextChars userSkills userKeywords
  if jsTrim jobText = [] ∨ jsTrim userText = [] then 0
  else
    let userTokens := tokenize userText
    let jobTokens := tokenize jobText
    if userTokens = [] ∨ jobTokens = [] then 0
    else
      (dedupFirstSeen userTokens).foldl
        (fun score skill =>
          let t := tfidfTermWeight jobTokens skill
          if 0 < t then score + t else score) 0

/-! ### Recommendation module: orchestrator (`getRecommendations`) -/

/-- The score the orchestrator computes for one listing. -/
noncomputable def jobScore (user : User) (job : Job) : ℝ :=
  calculateTFIDFScore user.skills user.resumeKeywords
    job.description job.skills job.requirements

/-- The `scoredJobs` array of the source: every listing paired with its
score, in the original listing order. -/
noncomputable def scoredJobs (user : User) (jobs : List Job) : List (Job × ℝ) :=
  jobs.map fun job => (job, jobScore user job)

/-- The comparator `(a, b) => b.score - a.score` as the boolean relation
"a may precede b": the score of `a` is at least the score of `b`. -/
noncomputable def scoreDescLE (a b : Job × ℝ) : Bool := decide (b.2 ≤ a.2)

/-- Lookup in the `Map` built from `jobs.map(job => [id, job])`: when two
listings share an identifier the later insertion wins, hence the search
over the reversed list. -/
def jobMapGet (jobs : List Job) (jobId : String) : Option Job :=
  jobs.reverse.find? (fun job => decide (job.id = jobId))

/-- The identifier ranking the fallback path produces: sort the scored
listings by descending score with the stable sort, then project the
identifiers. -/
noncomputable def fallbackRankedIds (user : User) (jobs : List Job) : List String :=
  ((scoredJobs user jobs).mergeSort scoreDescLE).map (fun item => item.1.id)

/-- Embedding of `getRecommendations`.  `user` is the result of the user
lookup (`none` models a missing user, which is fatal); `jobs` is the
active-listing collection; `aiOutcome` is the oracle for
`getOpenAIRecommendations` per its documented contract — `none` when no
credential is configured or the call or its JSON parsing failed, `some
ids` for a successfully parsed array of identifier strings.  The ranked
identifiers are mapped back through the listing map, misses are dropped,
and the result is truncated to `limit`. -/
noncomputable def getRecommendations (user : Option User) (jobs : List Job)
    (limit : ℕ) (aiOutcome : Option (List String)) : Except String (List Job) :=
  match user with
  | none => Except.error "User not found"
  | some u =>
    if jobs.length = 0 then Except.ok []
    else
      let rankedJobIds :=
        match aiOutcome with
        | some ids => ids
        | none => fallbackRankedIds u jobs
      Except.ok ((rankedJobIds.filterMap (jobMapGet jobs)).take limit)

/-! ### Concrete sample data for witnesses and counterexamples -/

/-- A sample user with an empty profile. -/
def sampleUser : User := { skills := [], resumeKeywords := [] }

/-- A sample user with one skill. -/
def pythonUser : User := { skills := ["Python"], resumeKeywords := [] }

/-- A sample listing with identifier `"a"`. -/
def sampleJobA : Job :=
  { id := "a", title := "Backend",  description := "Python backend role"
    skills := ["Python"], requirements := [] }

/-- A second sample listing with identifier `"b"`. -/
def sampleJobB : Job :=
  { id := "b", title := "Enterprise", description := "Java enterprise role"
    skills := ["Java"], requirements := [] }

/-- An AI intent carrying only a senior job level. -/
def seniorIntent : StructuredIntent :=
  { originalQuery := "senior dev"
    processedQuery := ""
    keywords := []
    intent := "general"
    useAI := true
    jobLevel := some "senior" }

/-- A caller-supplied base query holding an active-status filter and an
experience filter. -/
def sampleBaseQuery : MongoQuery := fun k =>
  if k = "status" then some (QVal.strVal "active")
  else if k = "experience" then some (QVal.expRange none (some 1))
  else none

/-- A trivial parse oracle that never succeeds. -/
def noParse : String → Option ParsedResponse := fun _ => none

/-- A trivial extraction oracle that never matches. -/
def noBlock : String → Option String := fun _ => none

/-! ### Helper lemmas: text pipeline -/

/-- Splitting never produces the empty list of fragments. -/
theorem splitChars_ne_nil (p : Char → Bool) (l : List Char) : splitChars p l ≠ [] := by
  cases l with
  | nil => simp [splitChars]
  | cons c cs =>
    simp only [splitChars]
    match h : splitChars p cs with
    | [] => simp
    | t :: ts =>
      by_cases hp : p c = true
      · simp [hp]
      · simp [hp]

/-- A whitespace character is one of space, tab, carriage return, newline. -/
theorem ws_chars (c : Char) (hw : Char.isWhitespace c = true) :
    c = ' ' ∨ c = '\t' ∨ c = '\r' ∨ c = '\n' := by
  have hw2 : (decide (c = ' ') || decide (c = '\t') || decide (c = '\x0d')
      || decide (c = '\n')) = true := hw
  simp only [Bool.or_eq_true, decide_eq_true_eq] at hw2
  tauto

/-- A word character is not whitespace. -/
theorem wordChar_not_ws (c : Char) (h : wordChar c = true) : Char.isWhitespace c = false := by
  cases hb : c.isWhitespace with
  | false => rfl
  | true =>
    exfalso
    rcases ws_chars c hb with rfl | rfl | rfl | rfl <;> simp [wordChar] at h

/-- The source replacement and the specification replacement agree on
whether the result is whitespace. -/
theorem ws_srcReplace_eq (c : Char) :
    Char.isWhitespace (srcReplaceChar c) = Char.isWhitespace (specReplaceChar c) := by
  by_cases hw : wordChar c = true
  · simp only [srcReplaceChar, specReplaceChar, hw, Bool.not_true, Bool.false_and,
      Bool.false_eq_true, if_false, if_true]
  · have hw2 : wordChar c = false := by simpa using hw
    by_cases hs : Char.isWhitespace c = true
    · simp only [srcReplaceChar, specReplaceChar, hw2, hs, Bool.not_true, Bool.not_false,
        Bool.true_and, Bool.and_false, Bool.false_eq_true, if_false]
      decide
    · have hs2 : Char.isWhitespace c = false := by simpa using hs
      simp only [srcReplaceChar, specReplaceChar, hw2, hs2, Bool.not_false, Bool.true_and,
        if_true, Bool.false_eq_true, if_false]

/-- When the replaced character is not whitespace, both replacements
produce the same character. -/
theorem srcReplace_eq_of_not_ws (c : Char)
    (h : Char.isWhitespace (srcReplaceChar c) = false) :
    srcReplaceChar c = specReplaceChar c := by
  by_cases hw : wordChar c = true
  · simp only [srcReplaceChar, specReplaceChar, hw, Bool.not_true, Bool.false_and,
      Bool.false_eq_true, if_false, if_true]
  · have hw2 : wordChar c = false := by simpa using hw
    by_cases hs : Char.isWhitespace c = true
    · exfalso
      simp only [srcReplaceChar, hw2, hs, Bool.not_true, Bool.not_false, Bool.true_and,
        Bool.and_false, Bool.false_eq_true, if_false] at h
      exact Bool.noConfusion h
    · have hs2 : Char.isWhitespace c = false := by simpa using hs
      simp only [srcReplaceChar, specReplaceChar, hw2, hs2, Bool.not_false, Bool.true_and,
        if_true, Bool.false_eq_true, if_false]

/-- Splitting on whitespace after the source replacement and after the
specification replacement yields the same fragments. -/
theorem splitChars_replace_eq (l : List Char) :
    splitChars Char.isWhitespace (l.map srcReplaceChar)
      = splitChars Char.isWhitespace (l.map specReplaceChar) := by
  induction l with
  | nil => rfl
  | cons c cs ih =>
    simp only [List.map_cons, splitChars, ih]
    cases hr : splitChars Char.isWhitespace (cs.map specReplaceChar) with
    | nil => rfl
    | cons t ts =>
      cases hws : Char.isWhitespace (srcReplaceChar c) with
      | true =>
        have hws2 : Char.isWhitespace (specReplaceChar c) = true :=
          (ws_srcReplace_eq c).symm.trans hws
        simp [hws, hws2]
      | false =>
        have hws2 : Char.isWhitespace (specReplaceChar c) = false :=
          (ws_srcReplace_eq c).symm.trans hws
        simp [hws, hws2, srcReplace_eq_of_not_ws c hws]

/-! ### Helper lemmas: query building -/

/-- Assignment leaves every other key unchanged. -/
theorem qset_apply_ne (q : MongoQuery) (key v k) (h : k ≠ key) : qset q key v k = q k := by
  simp [qset, h]

/-- Assignment stores the value under its key. -/
theorem qset_apply_self (q : MongoQuery) (key v) : qset q key v key = some v := by
  simp [qset]

/-- The `$or` step leaves every key other than `$or` unchanged. -/
theorem orStep_apply_ne (d : StructuredIntent) (q : MongoQuery) (k : String)
    (h1 : k ≠ "$or") : orStep d q k = q k := by
  unfold orStep
  split
  · exact qset_apply_ne q _ _ k h1
  · rfl

/-- The builder writes only the keys `$or` and `experience`; every other
key of the result agrees with the caller-supplied base query. -/
theorem buildEnhancedQuery_apply_ne (pd : Option StructuredIntent) (base : MongoQuery)
    (k : String) (h1 : k ≠ "$or") (h2 : k ≠ "experience") :
    buildEnhancedQuery pd base k = base k := by
  cases pd with
  | none => rfl
  | some d =>
    simp only [buildEnhancedQuery]
    cases hai : d.useAI with
    | false =>
      rw [if_pos rfl]
      by_cases hpq : d.processedQuery ≠ ""
      · rw [if_pos hpq]
        exact qset_apply_ne base _ _ k h1
      · rw [if_neg hpq]
    | true =>
      rw [if_neg (by simp)]
      cases hjl : d.jobLevel with
      | none => exact orStep_apply_ne d base k h1
      | some lvl =>
        dsimp only
        cases hlm : levelMap lvl with
        | none =>
          simp only [hlm]
          exact orStep_apply_ne d base k h1
        | some r =>
          simp only [hlm]
          rw [qset_apply_ne _ _ _ k h2]
          exact orStep_apply_ne d base k h1

/-- On the AI path with a job level found in the seniority table, the
builder stores exactly the mapped experience range. -/
theorem buildEnhancedQuery_experience (d : StructuredIntent) (base : MongoQuery)
    (lvl : String) (r : Option Int × Option Int)
    (hai : d.useAI = true) (hjl : d.jobLevel = some lvl) (hlm : levelMap lvl = some r) :
    buildEnhancedQuery (some d) base "experience" = some (QVal.expRange r.1 r.2) := by
  simp only [buildEnhancedQuery]
  rw [hai, if_neg (by simp), hjl]
  simp only [hlm]
  exact qset_apply_self _ _ _

/-! ### Helper lemmas: scorer -/

/-- The score accumulator only ever adds positive weights, so it stays
non-negative. -/
theorem foldl_tfidf_nonneg (jobTokens : List (List Char)) :
    ∀ (l : List (List Char)) (acc : ℝ), 0 ≤ acc →
      0 ≤ l.foldl (fun score skill =>
        let t := tfidfTermWeight jobTokens skill
        if 0 < t then score + t else score) acc := by
  intro l
  induction l with
  | nil => intro acc h; simpa using h
  | cons a t ih =>
    intro acc h
    simp only [List.foldl_cons]
    apply ih
    by_cases hp : 0 < tfidfTermWeight jobTokens a
    · simp only [hp, if_true]
      exact add_nonneg h (le_of_lt hp)
    · simp only [hp, if_false]
      exact h

/-- The score is non-negative for every input. -/
theorem calculateTFIDFScore_nonneg (us uk : List String) (jd : String)
    (js jr : List String) : 0 ≤ calculateTFIDFScore us uk jd js jr := by
  unfold calculateTFIDFScore
  dsimp only
  split
  · exact le_refl 0
  · split
    · exact le_refl 0
    · exact foldl_tfidf_nonneg _ _ 0 (le_refl 0)

/-- If the profile side tokenizes to nothing the score is zero. -/
theorem calculateTFIDFScore_user_empty (us uk : List String) (jd : String)
    (js jr : List String) (h : tokenize (userTextChars us uk) = []) :
    calculateTFIDFScore us uk jd js jr = 0 := by
  unfold calculateTFIDFScore
  dsimp only
  split
  · rfl
  · split
    · rfl
    · rename_i h2
      exact absurd (Or.inl h) h2

/-- If the listing side tokenizes to nothing the score is zero. -/
theorem calculateTFIDFScore_job_empty (us uk : List String) (jd : String)
    (js jr : List String) (h : tokenize (jobTextChars jd js jr) = []) :
    calculateTFIDFScore us uk jd js jr = 0 := by
  unfold calculateTFIDFScore
  dsimp only
  split
  · rfl
  · split
    · rfl
    · rename_i h2
      exact absurd (Or.inr h) h2

/-! ### Helper lemmas: recommendation orchestrator -/

/-- The descending-score relation is transitive. -/
theorem scoreDescLE_trans (a b c : Job × ℝ) (hab : scoreDescLE a b = true)
    (hbc : scoreDescLE b c = true) : scoreDescLE a c = true := by
  simp only [scoreDescLE, decide_eq_true_eq] at hab hbc ⊢
  exact le_trans hbc hab

/-- The descending-score relation is total. -/
theorem scoreDescLE_total (a b : Job × ℝ) : scoreDescLE a b || scoreDescLE b a := by
  simp only [scoreDescLE]
  rcases le_total a.2 b.2 with h | h <;> simp [h]

/-- A hit in the listing map is a listing of the collection carrying the
looked-up identifier. -/
theorem jobMapGet_mem {jobs : List Job} {jobId : String} {j : Job}
    (h : jobMapGet jobs jobId = some j) : j ∈ jobs ∧ j.id = jobId := by
  unfold jobMapGet at h
  refine ⟨List.mem_reverse.mp (List.mem_of_find?_eq_some h), ?_⟩
  have h2 := List.find?_some h
  simpa using h2

/-- With pairwise distinct identifiers, looking up a listing's own
identifier returns that listing. -/
theorem jobMapGet_self {jobs : List Job} (hids : (jobs.map Job.id).Nodup)
    {j : Job} (hj : j ∈ jobs) : jobMapGet jobs j.id = some j := by
  have hsome : (jobs.reverse.find? (fun job => decide (job.id = j.id))).isSome :=
    List.find?_isSome.mpr ⟨j, List.mem_reverse.mpr hj, by simp⟩
  obtain ⟨j2, hj2⟩ := Option.isSome_iff_exists.mp hsome
  have hmem : j2 ∈ jobs := List.mem_reverse.mp (List.mem_of_find?_eq_some hj2)
  have hid : j2.id = j.id := by simpa using List.find?_some hj2
  have heq : j2 = j := List.inj_on_of_nodup_map hids hmem hj hid
  unfold jobMapGet
  rw [hj2, heq]

/-- A filterMap whose function always hits computes a map. -/
theorem filterMap_eq_map_of_some {α β : Type} (f : α → Option β) (g : α → β) :
    ∀ l : List α, (∀ a ∈ l, f a = some (g a)) → l.filterMap f = l.map g := by
  intro l
  induction l with
  | nil => intro _; rfl
  | cons a t ih =>
    intro h
    rw [List.filterMap_cons, h a (List.mem_cons_self a t), List.map_cons,
      ih (fun x hx => h x (List.mem_cons_of_mem a hx))]

/-- A filterMap that can only return its input or nothing is a sublist of
its input. -/
theorem filterMap_subid_sublist {α : Type} (f : α → Option α)
    (hf : ∀ a b, f a = some b → b = a) :
    ∀ l : List α, List.Sublist (l.filterMap f) l := by
  intro l
  induction l with
  | nil => simp
  | cons a t ih =>
    rw [List.filterMap_cons]
    cases hfa : f a with
    | none => exact List.Sublist.cons a ih
    | some b =>
      rw [hf a b hfa]
      exact List.Sublist.cons₂ a ih

/-- Projecting the scored list back to listings recovers the collection. -/
theorem scoredJobs_map_fst (u : User) (jobs : List Job) :
    (scoredJobs u jobs).map Prod.fst = jobs := by
  unfold scoredJobs
  rw [List.map_map]
  exact List.map_id jobs

/-- Every scored entry's listing belongs to the collection. -/
theorem mem_scoredJobs_fst {u : User} {jobs : List Job} {p : Job × ℝ}
    (hp : p ∈ scoredJobs u jobs) : p.1 ∈ jobs := by
  unfold scoredJobs at hp
  obtain ⟨j, hj, rfl⟩ := List.mem_map.mp hp
  exact hj

/-- Mapping the fallback identifier ranking back through the listing map
recovers the sorted listings, provided identifiers are distinct. -/
theorem fallback_filterMap (u : User) (jobs : List Job)
    (hids : (jobs.map Job.id).Nodup) :
    (fallbackRankedIds u jobs).filterMap (jobMapGet jobs)
      = ((scoredJobs u jobs).mergeSort scoreDescLE).map Prod.fst := by
  unfold fallbackRankedIds
  rw [List.filterMap_map]
  apply filterMap_eq_map_of_some
  intro p hp
  have hmem : p ∈ scoredJobs u jobs := List.mem_mergeSort.mp hp
  exact jobMapGet_self hids (mem_scoredJobs_fst hmem)

/-- Unfolding of the orchestrator on the external path. -/
theorem getRecommendations_ai (u : User) (jobs : List Job) (limit : ℕ)
    (ids : List String) (hne : jobs ≠ []) :
    getRecommendations (some u) jobs limit (some ids)
      = Except.ok ((ids.filterMap (jobMapGet jobs)).take limit) := by
  have h0 : ¬ jobs.length = 0 := fun hc => hne (List.length_eq_zero.mp hc)
  simp [getRecommendations, h0]

/-- Unfolding of the orchestrator on the fallback path. -/
theorem getRecommendations_fallback (u : User) (jobs : List Job) (limit : ℕ)
    (hne : jobs ≠ []) (hids : (jobs.map Job.id).Nodup) :
    getRecommendations (some u) jobs limit none
      = Except.ok ((((scoredJobs u jobs).mergeSort scoreDescLE).map Prod.fst).take limit) := by
  have h0 : ¬ jobs.length = 0 := fun hc => hne (List.length_eq_zero.mp hc)
  simp only [getRecommendations, h0, if_false]
  rw [fallback_filterMap u jobs hids]

/-- The sorted scored list is a permutation of the scored list. -/
theorem mergeSort_scored_perm (u : User) (jobs : List Job) :
    List.Perm ((scoredJobs u jobs).mergeSort scoreDescLE) (scoredJobs u jobs) :=
  List.mergeSort_perm _ _

/-- The scores along the sorted scored list are non-increasing. -/
theorem mergeSort_scored_sorted (u : User) (jobs : List Job) :
    (((scoredJobs u jobs).mergeSort scoreDescLE).map (fun p => p.2)).Pairwise
      (fun a b => b ≤ a) := by
  apply List.pairwise_map.mpr
  have h := List.sorted_mergeSort scoreDescLE_trans scoreDescLE_total (scoredJobs u jobs)
  exact h.imp (fun hab => by simpa [scoreDescLE] using hab)

/-- Stability of the fallback sort: for every score value, the entries
carrying that score appear in the sorted list exactly as they appear in
the original scored list. -/
theorem mergeSort_scored_filter_eq (u : User) (jobs : List Job) (s : ℝ) :
    ((scoredJobs u jobs).mergeSort scoreDescLE).filter (fun p => decide (p.2 = s))
      = (scoredJobs u jobs).filter (fun p => decide (p.2 = s)) := by
  have hsub : List.Sublist
      ((scoredJobs u jobs).filter (fun p => decide (p.2 = s))) (scoredJobs u jobs) :=
    List.filter_sublist _
  have hpw : ((scoredJobs u jobs).filter (fun p => decide (p.2 = s))).Pairwise
      (fun a b => scoreDescLE a b = true) := by
    apply List.pairwise_of_forall_mem_list
    intro a ha b hb
    have ha2 : a.2 = s := by simpa using (List.mem_filter.mp ha).2
    have hb2 : b.2 = s := by simpa using (List.mem_filter.mp hb).2
    simp [scoreDescLE, ha2, hb2]
  have hcsub : List.Sublist ((scoredJobs u jobs).filter (fun p => decide (p.2 = s)))
      ((scoredJobs u jobs).mergeSort scoreDescLE) :=
    List.sublist_mergeSort scoreDescLE_trans scoreDescLE_total hpw hsub
  have hself : ((scoredJobs u jobs).filter (fun p => decide (p.2 = s))).filter
      (fun p => decide (p.2 = s))
      = (scoredJobs u jobs).filter (fun p => decide (p.2 = s)) := by
    rw [List.filter_eq_self]
    intro p hp
    exact (List.mem_filter.mp hp).2
  have hfil : List.Sublist ((scoredJobs u jobs).filter (fun p => decide (p.2 = s)))
      (((scoredJobs u jobs).mergeSort scoreDescLE).filter (fun p => decide (p.2 = s))) := by
    rw [← hself]
    exact List.Sublist.filter _ hcsub
  have hlen : (((scoredJobs u jobs).mergeSort scoreDescLE).filter
      (fun p => decide (p.2 = s))).length
      = ((scoredJobs u jobs).filter (fun p => decide (p.2 = s))).length :=
    ((List.mergeSort_perm _ _).filter _).length_eq
  exact (hfil.eq_of_length hlen.symm).symm

/-! ### Helper lemmas: query interpretation paths -/

/-- On a successful upstream interaction the interpreter returns a
success intent. -/
theorem processSearchQuery_success (t : String) (o : GroqOutcome)
    (jp : String → Option ParsedResponse) (ex : String → Option String)
    (h : groqSuccess t o jp ex) :
    ∃ p, processSearchQuery t o jp ex = successIntent t p := by
  obtain ⟨hb, c, ho, hdisj⟩ := h
  subst ho
  unfold processSearchQuery
  rw [if_neg hb]
  dsimp only
  cases hjp : jp c with
  | some p => exact ⟨p, rfl⟩
  | none =>
    rcases hdisj with hsome | ⟨inner, hex, hsome⟩
    · rw [hjp] at hsome
      exact absurd hsome (by simp)
    · rw [hex]
      dsimp only
      obtain ⟨p, hp⟩ := Option.isSome_iff_exists.mp hsome
      rw [hp]
      exact ⟨p, rfl⟩

/-- On every failed upstream interaction the interpreter returns one of
the deterministic fallback intents. -/
theorem processSearchQuery_fallback (t : String) (o : GroqOutcome)
    (jp : String → Option ParsedResponse) (ex : String → Option String)
    (h : ¬ groqSuccess t o jp ex) :
    (processSearchQuery t o jp ex).useAI = false ∧
    (processSearchQuery t o jp ex).intent = "general" ∧
    (processSearchQuery t o jp ex).originalQuery = t ∧
    ((processSearchQuery t o jp ex).processedQuery = t ∨
      ((t = "" ∨ jsTrim t.toList = []) ∧
        (processSearchQuery t o jp ex).processedQuery = "")) := by
  unfold processSearchQuery
  by_cases hb : t = "" ∨ jsTrim t.toList = []
  · rw [if_pos hb]
    exact ⟨rfl, rfl, rfl, Or.inr ⟨hb, rfl⟩⟩
  · rw [if_neg hb]
    cases o with
    | noCredential => exact ⟨rfl, rfl, rfl, Or.inl rfl⟩
    | threw msg => exact ⟨rfl, rfl, rfl, Or.inl rfl⟩
    | returned content =>
      cases content with
      | none => exact ⟨rfl, rfl, rfl, Or.inl rfl⟩
      | some c =>
        dsimp only
        cases hjp : jp c with
        | some p =>
          exact absurd ⟨hb, c, rfl, Or.inl (by simp [hjp])⟩ h
        | none =>
          cases hex : ex c with
          | some inner =>
            dsimp only
            cases hjpi : jp inner with
            | some p =>
              exact absurd ⟨hb, c, rfl, Or.inr ⟨inner, hex, by simp [hjpi]⟩⟩ h
            | none => exact ⟨rfl, rfl, rfl, Or.inl rfl⟩
          | none => exact ⟨rfl, rfl, rfl, Or.inl rfl⟩

/-! ### Claim theorems -/

/-- C2: for every string input and every outcome of the external
text-understanding service — no credential, a thrown error, missing
content, non-JSON or JSON content, under every behaviour of the JSON
parser and the fenced-block recovery — `processSearchQuery` resolves
with a structured intent (it is a total function by construction, so no
error reaches the caller), its `useAI` flag is `true` exactly on upstream
success, and on every failure the returned intent is the deterministic
fallback with `useAI = false`. -/
theorem claim_C2_interpret_total : ∀ (t : String) (o : GroqOutcome)
    (jp : String → Option ParsedResponse) (ex : String → Option String),
    ((processSearchQuery t o jp ex).useAI = true ↔ groqSuccess t o jp ex) ∧
    (processSearchQuery t o jp ex).originalQuery = t ∧
    ((processSearchQuery t o jp ex).useAI = false →
      (processSearchQuery t o jp ex).intent = "general") := by
  intro t o jp ex
  by_cases h : groqSuccess t o jp ex
  · obtain ⟨p, hp⟩ := processSearchQuery_success t o jp ex h
    refine ⟨⟨fun _ => h, fun _ => by rw [hp]; rfl⟩, by rw [hp]; rfl, ?_⟩
    intro hfalse
    rw [hp] at hfalse
    exact absurd hfalse (by simp [successIntent])
  · obtain ⟨h1, h2, h3, _⟩ := processSearchQuery_fallback t o jp ex h
    refine ⟨⟨fun htrue => ?_, fun hs => absurd hs h⟩, h3, fun _ => h2⟩
    rw [h1] at htrue
    exact absurd htrue (by simp)

/-- Witness for C2 at a concrete input: with no credential configured the
interpreter resolves with the fallback intent label. -/
theorem claim_C2_interpret_total_witness :
    (processSearchQuery "designer" GroqOutcome.noCredential noParse noBlock).intent
      = "general" :=
  (claim_C2_interpret_total "designer" GroqOutcome.noCredential noParse noBlock).2.2
    (by decide)

/-- C5 (corrected): whenever the returned intent has `useAI = false`, its
`processedQuery` equals the verbatim input — except for blank input (the
claim as stated fails there), where it is the empty string. -/
theorem claim_C5_amended : ∀ (t : String) (o : GroqOutcome)
    (jp : String → Option ParsedResponse) (ex : String → Option String),
    (processSearchQuery t o jp ex).useAI = false →
    ((processSearchQuery t o jp ex).processedQuery = t ∨
      ((t = "" ∨ jsTrim t.toList = []) ∧
        (processSearchQuery t o jp ex).processedQuery = "")) := by
  intro t o jp ex hfalse
  by_cases h : groqSuccess t o jp ex
  · obtain ⟨p, hp⟩ := processSearchQuery_success t o jp ex h
    rw [hp] at hfalse
    exact absurd hfalse (by simp [successIntent])
  · exact (processSearchQuery_fallback t o jp ex h).2.2.2

/-- Witness for C5 (amended) at a concrete non-blank input. -/
theorem claim_C5_amended_witness :
    (processSearchQuery "remote python jobs" GroqOutcome.noCredential noParse
        noBlock).processedQuery = "remote python jobs" ∨
      (("remote python jobs" = "" ∨ jsTrim "remote python jobs".toList = []) ∧
        (processSearchQuery "remote python jobs" GroqOutcome.noCredential noParse
          noBlock).processedQuery = "") :=
  claim_C5_amended "remote python jobs" GroqOutcome.noCredential noParse noBlock
    (by decide)

/-- Counterexample to C5 as stated: on the whitespace-only input `" "`
the interpreter returns `useAI = false` with `processedQuery = ""`,
which is not the verbatim input. -/
theorem claim_C5_cex :
    (processSearchQuery " " GroqOutcome.noCredential noParse noBlock).useAI = false ∧
    ¬ (processSearchQuery " " GroqOutcome.noCredential noParse noBlock).processedQuery
        = " " := by
  constructor
  · decide
  · decide

/-- C7: `extractKeywords` computes exactly the sequence described by the
specification — lowercase, replace non-word characters by whitespace,
split on whitespace, drop tokens of length at most two, drop stop words,
deduplicate preserving first-seen order — and empty input yields the
empty sequence (the function is total, so no input raises). -/
theorem claim_C7_extractKeywords :
    (∀ text, extractKeywords text = extractKeywordsSpec text) ∧
      extractKeywords "" = [] := by
  constructor
  · intro text
    by_cases ht : text = ""
    · subst ht
      decide
    · unfold extractKeywords extractKeywordsSpec
      rw [if_neg ht, splitChars_replace_eq]
  · rfl

/-- C4 (corrected): the builder preserves every caller-supplied filter
under a key other than `$or` and `experience` — in particular a
`status` filter is always retained unchanged.  (As stated the claim is
false: the fallback path replaces an existing `$or` and a recognized
`jobLevel` overwrites an existing `experience` filter.) -/
theorem claim_C4_amended :
    (∀ (pd : Option StructuredIntent) (base : MongoQuery) (k : String),
      k ≠ "$or" → k ≠ "experience" → buildEnhancedQuery pd base k = base k) ∧
    (∀ (pd : Option StructuredIntent) (base : MongoQuery),
      buildEnhancedQuery pd base "status" = base "status") :=
  ⟨buildEnhancedQuery_apply_ne,
   fun pd base => buildEnhancedQuery_apply_ne pd base "status" (by decide) (by decide)⟩

/-- Witness for C4 (amended): the sample base query keeps its
`status:"active"` filter. -/
theorem claim_C4_amended_witness :
    buildEnhancedQuery (some seniorIntent) sampleBaseQuery "status"
      = sampleBaseQuery "status" :=
  claim_C4_amended.1 (some seniorIntent) sampleBaseQuery "status" (by decide) (by decide)

/-- Counterexample to C4 as stated: a caller-supplied `experience` filter
is overwritten by the seniority mapping of an AI intent, so the builder
does not always leave existing filters unchanged. -/
theorem claim_C4_cex :
    ¬ buildEnhancedQuery (some seniorIntent) sampleBaseQuery "experience"
      = sampleBaseQuery "experience" := by
  decide

/-- C8: when `jobLevel` is set on an AI intent, the builder adds an AND-ed
`experience` range filter whose ranges are exactly the seniority table —
entry `[0,2]`, mid `[2,5]`, senior `[5,10]`, executive `[10,∞)` — and for
non-negative experience values each stored range is equivalent to the
claimed inclusive interval (for `senior`, exactly `[5,10]`). -/
theorem claim_C8_jobLevel_ranges :
    (levelMap "entry" = some (none, some 2) ∧
     levelMap "mid" = some (some 2, some 5) ∧
     levelMap "senior" = some (some 5, some 10) ∧
     levelMap "executive" = some (some 10, none)) ∧
    (∀ (d : StructuredIntent) (base : MongoQuery) (lvl : String)
        (r : Option Int × Option Int),
      d.useAI = true → d.jobLevel = some lvl → levelMap lvl = some r →
      buildEnhancedQuery (some d) base "experience" = some (QVal.expRange r.1 r.2)) ∧
    (∀ e : Int, 0 ≤ e → (expRangeMatches none (some 2) e = true ↔ 0 ≤ e ∧ e ≤ 2)) ∧
    (∀ e : Int, 0 ≤ e → (expRangeMatches (some 2) (some 5) e = true ↔ 2 ≤ e ∧ e ≤ 5)) ∧
    (∀ e : Int, 0 ≤ e → (expRangeMatches (some 5) (some 10) e = true ↔ 5 ≤ e ∧ e ≤ 10)) ∧
    (∀ e : Int, 0 ≤ e → (expRangeMatches (some 10) none e = true ↔ 10 ≤ e)) := by
  refine ⟨⟨rfl, rfl, rfl, rfl⟩, buildEnhancedQuery_experience, ?_, ?_, ?_, ?_⟩ <;>
    (intro e he
     constructor
     · intro h
       simp [expRangeMatches] at h
       omega
     · intro h
       simp [expRangeMatches]
       omega)

/-- Witness for C8: the senior level stores exactly the `[5,10]` range in
the built query, and the range accepts the experience value 7. -/
theorem claim_C8_jobLevel_ranges_witness :
    buildEnhancedQuery (some seniorIntent) sampleBaseQuery "experience"
      = some (QVal.expRange (some 5) (some 10)) ∧
    (expRangeMatches (some 5) (some 10) 7 = true ↔ 5 ≤ (7 : Int) ∧ (7 : Int) ≤ 10) :=
  ⟨claim_C8_jobLevel_ranges.2.1 seniorIntent sampleBaseQuery "senior" (some 5, some 10)
      rfl rfl rfl,
   claim_C8_jobLevel_ranges.2.2.2.2.1 7 (by decide)⟩

/-- C6: the score is non-negative for every input and is exactly zero
whenever either side tokenizes to nothing; in particular an empty profile
or an empty listing text with no skills and requirements scores zero. -/
theorem claim_C6_score_nonneg_zero : ∀ (us uk : List String) (jd : String)
    (js jr : List String),
    0 ≤ calculateTFIDFScore us uk jd js jr ∧
    (tokenize (userTextChars us uk) = [] → calculateTFIDFScore us uk jd js jr = 0) ∧
    (tokenize (jobTextChars jd js jr) = [] → calculateTFIDFScore us uk jd js jr = 0) ∧
    calculateTFIDFScore [] [] jd js jr = 0 ∧
    calculateTFIDFScore us uk "" [] [] = 0 := by
  intro us uk jd js jr
  exact ⟨calculateTFIDFScore_nonneg us uk jd js jr,
    calculateTFIDFScore_user_empty us uk jd js jr,
    calculateTFIDFScore_job_empty us uk jd js jr,
    calculateTFIDFScore_user_empty [] [] jd js jr (by decide),
    calculateTFIDFScore_job_empty us uk "" [] [] (by decide)⟩

/-- Witness for C6 at the all-empty input. -/
theorem claim_C6_score_witness :
    0 ≤ calculateTFIDFScore [] [] "" [] [] ∧ calculateTFIDFScore [] [] "" [] [] = 0 :=
  ⟨(claim_C6_score_nonneg_zero [] [] "" [] []).1,
   (claim_C6_score_nonneg_zero [] [] "" [] []).2.1 (by decide)⟩

/-- C10: with a successful user lookup and an empty active-listing
collection the orchestrator returns the empty sequence immediately; the
result is the same for every outcome of the external ranking service and
every user profile, which is the observable content of "without invoking
the external ranking service or the scorer". -/
theorem claim_C10_empty_listings : ∀ (u : User) (limit : ℕ)
    (ai : Option (List String)),
    getRecommendations (some u) [] limit ai = Except.ok [] := by
  intro u limit ai
  rfl

/-- C1 (corrected): for every user whose lookup succeeds, every non-empty
listing collection with pairwise distinct identifiers and every outcome
of the external ranking path, the returned sequence contains only
listings of the collection (external identifiers absent from the
collection are dropped) and has length at most `limit`; its identifiers
are pairwise distinct whenever the external identifier sequence is
duplicate-free — in particular always on the fallback path.  (As stated
the claim is false: the source does not deduplicate repeated identifiers
returned by the external ranking path.) -/
theorem claim_C1_amended : ∀ (u : User) (jobs : List Job) (limit : ℕ)
    (ai : Option (List String)),
    jobs ≠ [] → (jobs.map Job.id).Nodup →
    ∃ recs, getRecommendations (some u) jobs limit ai = Except.ok recs ∧
      (∀ j ∈ recs, j ∈ jobs) ∧ recs.length ≤ limit ∧
      ((∀ ids, ai = some ids → ids.Nodup) → (recs.map Job.id).Nodup) := by
  intro u jobs limit ai hne hids
  cases ai with
  | some ids =>
    refine ⟨(ids.filterMap (jobMapGet jobs)).take limit,
      getRecommendations_ai u jobs limit ids hne, ?_, ?_, ?_⟩
    · intro j hj
      have hj2 : j ∈ ids.filterMap (jobMapGet jobs) := List.mem_of_mem_take hj
      obtain ⟨i, _, hfi⟩ := List.mem_filterMap.mp hj2
      exact (jobMapGet_mem hfi).1
    · exact List.length_take_le _ _
    · intro hnd
      have hidsnd : ids.Nodup := hnd ids rfl
      have hsub : List.Sublist ((ids.filterMap (jobMapGet jobs)).map Job.id) ids := by
        rw [List.map_filterMap]
        apply filterMap_subid_sublist
        intro a b hab
        cases hg : jobMapGet jobs a with
        | none =>
          rw [hg] at hab
          exact absurd hab (by simp)
        | some j =>
          rw [hg] at hab
          have hb : j.id = b := by simpa using hab
          have hja := (jobMapGet_mem hg).2
          rw [← hb]
          exact hja
      rw [List.map_take]
      exact (hidsnd.sublist hsub).sublist (List.take_sublist limit _)
  | none =>
    refine ⟨(((scoredJobs u jobs).mergeSort scoreDescLE).map Prod.fst).take limit,
      getRecommendations_fallback u jobs limit hne hids, ?_, ?_, ?_⟩
    · intro j hj
      have hj2 := List.mem_of_mem_take hj
      obtain ⟨p, hp, rfl⟩ := List.mem_map.mp hj2
      exact mem_scoredJobs_fst (List.mem_mergeSort.mp hp)
    · exact List.length_take_le _ _
    · intro _
      have hperm : List.Perm (((scoredJobs u jobs).mergeSort scoreDescLE).map Prod.fst)
          jobs := by
        have h1 := (mergeSort_scored_perm u jobs).map Prod.fst
        rw [scoredJobs_map_fst] at h1
        exact h1
      have hnodup : ((((scoredJobs u jobs).mergeSort scoreDescLE).map Prod.fst).map
          Job.id).Nodup := (hperm.map Job.id).nodup_iff.mpr hids
      rw [List.map_take]
      exact hnodup.sublist (List.take_sublist limit _)

/-- Witness for C1 (amended) at a concrete input with a duplicate-free
external identifier sequence. -/
theorem claim_C1_amended_witness :
    ∃ recs, getRecommendations (some sampleUser) [sampleJobA, sampleJobB] 1 (some ["b"])
        = Except.ok recs ∧
      (∀ j ∈ recs, j ∈ [sampleJobA, sampleJobB]) ∧ recs.length ≤ 1 ∧
      ((∀ ids, (some ["b"] : Option (List String)) = some ids → ids.Nodup) →
        (recs.map Job.id).Nodup) :=
  claim_C1_amended sampleUser [sampleJobA, sampleJobB] 1 (some ["b"]) (by decide) (by decide)

/-- Counterexample to C1 as stated: when the external ranking path yields
the identifier `"a"` twice, the orchestrator returns the listing twice,
so the output repeats an identifier and is not a duplicate-free
subsequence of the collection. -/
theorem claim_C1_cex :
    getRecommendations (some sampleUser) [sampleJobA] 10 (some ["a", "a"])
      = Except.ok [sampleJobA, sampleJobA] ∧
    ¬ (([sampleJobA, sampleJobA].map Job.id).Nodup) := by
  constructor
  · rfl
  · decide

/-- C3: with no external ranking credential (modelled by the `none`
outcome) the orchestrator's result is the pure function of
`(profile, listings)` shown: every listing is scored by the term-weight
scorer, the scored list is sorted by descending score by the stable
`mergeSort`, and the result is that order truncated to `limit`.  The
sorted list is a permutation of the scored list with non-increasing
scores, and for every score value the tied entries keep their original
relative order (stability); repeated calls agree because the result is
this single deterministic expression. -/
theorem claim_C3_fallback_deterministic : ∀ (u : User) (jobs : List Job) (limit : ℕ),
    jobs ≠ [] → (jobs.map Job.id).Nodup →
    getRecommendations (some u) jobs limit none
      = Except.ok ((((scoredJobs u jobs).mergeSort scoreDescLE).map Prod.fst).take limit) ∧
    (((scoredJobs u jobs).mergeSort scoreDescLE).map (fun p => p.2)).Pairwise
      (fun a b => b ≤ a) ∧
    List.Perm ((scoredJobs u jobs).mergeSort scoreDescLE) (scoredJobs u jobs) ∧
    (∀ s : ℝ, ((scoredJobs u jobs).mergeSort scoreDescLE).filter
        (fun p => decide (p.2 = s))
      = (scoredJobs u jobs).filter (fun p => decide (p.2 = s))) := by
  intro u jobs limit hne hids
  exact ⟨getRecommendations_fallback u jobs limit hne hids,
    mergeSort_scored_sorted u jobs,
    mergeSort_scored_perm u jobs,
    fun s => mergeSort_scored_filter_eq u jobs s⟩

/-- Witness for C3 at a concrete profile and listing pair. -/
theorem claim_C3_fallback_deterministic_witness :
    List.Perm ((scoredJobs pythonUser [sampleJobA, sampleJobB]).mergeSort scoreDescLE)
      (scoredJobs pythonUser [sampleJobA, sampleJobB]) :=
  (claim_C3_fallback_deterministic pythonUser [sampleJobA, sampleJobB] 10
    (by decide) (by decide)).2.2.1

/-- C9: on the fallback path with a non-empty collection of listings with
distinct identifiers and `limit` at least the collection size, the
orchestrator returns a permutation of the whole collection in which every
listing appears exactly once — zero-scored listings included. -/
theorem claim_C9_fallback_perm : ∀ (u : User) (jobs : List Job) (limit : ℕ),
    jobs ≠ [] → (jobs.map Job.id).Nodup → jobs.length ≤ limit →
    ∃ ranked, getRecommendations (some u) jobs limit none = Except.ok ranked ∧
      List.Perm ranked jobs ∧ ∀ j ∈ jobs, ranked.count j = 1 := by
  intro u jobs limit hne hids hlim
  have hperm : List.Perm (((scoredJobs u jobs).mergeSort scoreDescLE).map Prod.fst)
      jobs := by
    have h1 := (mergeSort_scored_perm u jobs).map Prod.fst
    rw [scoredJobs_map_fst] at h1
    exact h1
  have hlen : (((scoredJobs u jobs).mergeSort scoreDescLE).map Prod.fst).length
      = jobs.length := hperm.length_eq
  have htake : ((((scoredJobs u jobs).mergeSort scoreDescLE).map Prod.fst)).take limit
      = ((scoredJobs u jobs).mergeSort scoreDescLE).map Prod.fst := by
    apply List.take_of_length_le
    rw [hlen]
    exact hlim
  refine ⟨((scoredJobs u jobs).mergeSort scoreDescLE).map Prod.fst, ?_, hperm, ?_⟩
  · rw [getRecommendations_fallback u jobs limit hne hids, htake]
  · intro j hj
    have hjobsnd : jobs.Nodup := List.Nodup.of_map Job.id hids
    rw [hperm.count_eq j]
    exact List.count_eq_one_of_mem hjobsnd hj

/-- Witness for C9 at a concrete profile and listing pair. -/
theorem claim_C9_fallback_perm_witness :
    ∃ ranked, getRecommendations (some pythonUser) [sampleJobA, sampleJobB] 10 none
        = Except.ok ranked ∧
      List.Perm ranked [sampleJobA, sampleJobB] ∧
      ∀ j ∈ [sampleJobA, sampleJobB], ranked.count j = 1 :=
  claim_C9_fallback_perm pythonUser [sampleJobA, sampleJobB] 10
    (by decide) (by decide) (by decide)
